import Mathlib

/-!
# Verification of the reference-resolution and caching engine

Shallow embedding of the biblio engine:
* `src/core/biblio.js` — source adapters (`updateFromSpecref`, `updateFromCrossref`),
  the combined fetch (`updateFromNetwork`), alias resolution (`resolveRef`) and the
  orchestrator (`Plugin.run`);
* the render module (`toRefContent`, `groupRefs`, `getUniqueRefs`, `getAliases`).

JavaScript objects are modelled as association lists with property-access
(`objGet`), property-assignment (`objSet`) and `Object.assign` (`objAssign`)
semantics.  Exceptions are modelled with `Except`: a `.error` value is an
exception escaping the modelled function.  Network and IndexedDB behaviour is
passed in explicitly as environment values, so every definition is a pure,
executable function of the source code's inputs.
-/

set_option autoImplicit false

namespace Respec

/-! ## JavaScript value helpers -/

/-- JS string truthiness for an optional string field: the field is truthy
exactly when it is present and non-empty.  `truthyStr? o = some s` returns the
truthy value. -/
def truthyStr? (o : Option String) : Option String :=
  match o with
  | some s => if s = "" then none else some s
  | none => none

/-- JS property access `o[k]` / `o.hasOwnProperty(k)` on an object modelled as
an association list: the first binding of the key, if any. -/
def objGet {κ α : Type} [DecidableEq κ] (o : List (κ × α)) (k : κ) : Option α :=
  (o.find? (fun p => p.1 = k)).map (fun p => p.2)

/-- JS property assignment `o[k] = v`: replaces the binding in place when the
key is present (JS objects keep the original insertion position), otherwise
appends a new binding. -/
def objSet {κ α : Type} [DecidableEq κ] (o : List (κ × α)) (k : κ) (v : α) : List (κ × α) :=
  if (o.find? (fun p => p.1 = k)).isSome then
    o.map (fun p => if p.1 = k then (k, v) else p)
  else
    o ++ [(k, v)]

/-- JS `Object.assign(o, u)`: every binding of `u` is assigned into `o` in order. -/
def objAssign {κ α : Type} [DecidableEq κ] (o u : List (κ × α)) : List (κ × α) :=
  u.foldl (fun acc p => objSet acc p.1 p.2) o

/-- JS `String.prototype.trim()`: strip leading and trailing whitespace.
Defined over the character list so that it is kernel-reducible. -/
def jsTrim (s : String) : String :=
  ⟨((s.data.dropWhile Char.isWhitespace).reverse.dropWhile Char.isWhitespace).reverse⟩

/-- JS `String.prototype.startsWith(pre)`. -/
def jsStartsWith (s pre : String) : Bool :=
  pre.data.isPrefixOf s.data

/-- ASCII lowering of one character, as `String.prototype.toLowerCase()` acts
on the ASCII range the reference keys use. -/
def jsCharLower (c : Char) : Char :=
  if 'A' ≤ c ∧ c ≤ 'Z' then Char.ofNat (c.toNat + 32) else c

/-- JS `String.prototype.toLowerCase()`. -/
def jsToLower (s : String) : String :=
  ⟨s.data.map jsCharLower⟩

/-- Code-unit comparison backing the default `Array.prototype.sort()`
comparator. -/
def jsLeChars : List Char → List Char → Bool
  | [], _ => true
  | _ :: _, [] => false
  | a :: as, b :: bs =>
    if a.toNat < b.toNat then true
    else if b.toNat < a.toNat then false
    else jsLeChars as bs

/-- String order used by the default sort. -/
def jsLe (a b : String) : Bool :=
  jsLeChars a.data b.data

/-- JS `[...new Set(l)]`: deduplication keeping the first occurrence of each
element, in order. -/
def jsSetDedup {α : Type} [DecidableEq α] (l : List α) : List α :=
  l.foldl (fun acc x => if x ∈ acc then acc else acc ++ [x]) []

/-- JS `Array.prototype.sort()` with the default comparator, modelled as a sort by
the code-unit string order. -/
def jsSort (l : List String) : List String :=
  l.insertionSort (fun a b => jsLe a b = true)

/-! ## Data model -/

/-- A biblio entry / raw metadata record.  Only the fields the engine inspects
are modelled; every field is optional, as on a JS object. -/
structure Entry where
  aliasOf : Option String := none
  id : Option String := none
  title : Option String := none
  DOI : Option String := none
  reference : Option String := none
deriving DecidableEq, Repr, Inhabited

/-- A JS exception escaping a modelled function. -/
inductive JsErr where
  /-- Exception `ReferenceError: <name> is not defined`. -/
  | referenceError (name : String)
  /-- Exception `TypeError` from accessing a property of `undefined`. -/
  | typeError
  /-- Rejection of `response.json()` (malformed body). -/
  | parseError
deriving DecidableEq, Repr

/-- A response as seen by `updateFromSpecref`: an HTTP status and the outcome
of `response.json()` (`.error` when the body is not valid JSON). -/
structure SpecResponse where
  status : Nat
  body : Except Unit (List (String × Entry))

/-- JS `response.ok`: status in the inclusive range 200–299. -/
def SpecResponse.ok (r : SpecResponse) : Bool :=
  200 ≤ r.status && r.status ≤ 299

/-- Outcome of the `fetch` in `updateFromSpecref`: either the promise rejects
(network unreachable / request error) or a response arrives. -/
inductive SpecOutcome where
  | fetchError
  | response (resp : SpecResponse)

/-- Outcome of the `fetch` in `updateFromCrossref`.  The body field models the
chain `await response.json()` then `data.message.items`:
`.error ()` when `json()` rejects, `.ok none` when the parsed data has no
`message.items` array (so the access throws), `.ok (some items)` otherwise. -/
inductive CrossOutcome where
  | fetchError
  | response (body : Except Unit (Option (List Entry)))

/-! ## Source adapters (`src/core/biblio.js`) -/

/-- The body of the `reduce` in `updateFromCrossref` (biblio.js lines 81–92):
collect each item with a truthy `DOI` under the key `"doi:" + DOI` (setting its
`id` and deleting its `reference` field), and log
`"Invalid DOI metadata returned by Crossref"` for every other item.  Returns
the collector object together with the list of logged errors. -/
def crossrefStep (collector : List (String × Entry) × List String) (item : Entry) :
    List (String × Entry) × List String :=
  match truthyStr? item.DOI with
  | some doi =>
    let id := "doi:" ++ doi
    (objSet collector.1 id { item with id := some id, reference := none }, collector.2)
  | none => (collector.1, collector.2 ++ ["Invalid DOI metadata returned by Crossref"])

/-- The whole `reduce` call: fold the collector over the items, starting from
an empty object and an empty error log. -/
def crossrefCollect (items : List Entry) : List (String × Entry) × List String :=
  items.foldl crossrefStep ([], [])

/-- Model of `updateFromCrossref(refsToFetch)` (biblio.js lines 68–93).  `onLine` is
`navigator.onLine`; `outcome` is the behaviour of the network on this call. -/
def updateFromCrossref (refsToFetch : List String) (onLine : Bool)
    (outcome : CrossOutcome) : Except JsErr (Option (List (String × Entry))) :=
  -- `if (!refsToFetch.length || navigator.onLine === false) return null;`
  if refsToFetch.length = 0 || onLine = false then .ok none
  else
    match outcome with
    | .fetchError => .ok none   -- caught: `console.error(err); return null;`
    | .response (.error _) => .error .parseError   -- `await response.json()` rejects, uncaught
    | .response (.ok none) => .error .typeError    -- `data.message.items` is not there
    | .response (.ok (some items)) => .ok (some (crossrefCollect items).1)

/-- Model of `updateFromSpecref(refsToFetch, options)` (biblio.js lines 95–117). -/
def updateFromSpecref (refsToFetch : List String) (forceUpdate : Bool)
    (onLine : Bool) (outcome : SpecOutcome) :
    Except JsErr (Option (List (String × Entry))) :=
  -- `if (!refsToFetch.length || navigator.onLine === false) return null;`
  if refsToFetch.length = 0 || onLine = false then .ok none
  else
    match outcome with
    | .fetchError => .ok none   -- caught: `console.error(err); return null;`
    | .response resp =>
      -- `if ((!options.forceUpdate && !response.ok) || response.status !== 200) return null;`
      if (!forceUpdate && !resp.ok) || resp.status != 200 then .ok none
      else
        match resp.body with
        | .error _ => .error .parseError   -- `await response.json()` rejects, uncaught
        | .ok data => .ok (some data)

/-! ## Combined network fetch (`updateFromNetwork`, biblio.js lines 40–66) -/

/-- Source line `const refsToFetch = [...new Set(refs)].filter(ref => ref.trim());` -/
def refsToFetch (refs : List String) : List String :=
  (jsSetDedup refs).filter (fun r => jsTrim r ≠ "")

/-- Source line `const specrefIds = refsToFetch.filter(ref => !ref.startsWith("doi:"));` -/
def specrefIds (refs : List String) : List String :=
  (refsToFetch refs).filter (fun r => !(jsStartsWith r "doi:"))

/-- Source line `const crossrefIds = refsToFetch.filter(ref => ref.startsWith("doi:"));` -/
def crossrefIds (refs : List String) : List String :=
  (refsToFetch refs).filter (fun r => jsStartsWith r "doi:")

/-- The behaviour of the outside world during one `updateFromNetwork` call. -/
structure NetEnv where
  onLine : Bool
  specref : SpecOutcome
  crossref : CrossOutcome

/-- Model of `updateFromNetwork(refs, options)` (biblio.js lines 40–66).  After both
adapter calls the source evaluates
`response.headers.has("Expires")` — but `response` (and `oneHourFromNow`) are
local variables of `updateFromSpecref`, not in scope here, so the statement
throws `ReferenceError: response is not defined` before the cache write and
before `return data`. -/
def updateFromNetwork (refs : List String) (forceUpdate : Bool) (env : NetEnv) :
    Except JsErr (List (String × Entry)) := do
  let specrefData ← updateFromSpecref (specrefIds refs) forceUpdate env.onLine env.specref
  let crossrefData ← updateFromCrossref (crossrefIds refs) env.onLine env.crossref
  -- `const data = { ...specrefData, ...crossrefData };` (spreading null gives {})
  let _data := objAssign (specrefData.getD []) (crossrefData.getD [])
  -- `const expires = response.headers.has("Expires") ? ... : oneHourFromNow;`
  .error (.referenceError "response")

/-! ## Alias resolution (`resolveRef`, biblio.js lines 123–133)

`resolveRef` recurses through `aliasOf` pointers with no visited set, so the
recursion need not terminate; it is modelled with explicit fuel.  `some r`
means the source function returns `r` within the given recursion depth; `none`
means the depth was exhausted.  A key on which every fuel yields `none` is a
key on which the source function never returns. -/

/-- Fuel-indexed model of `resolveRef(key)` over a ready store `biblio`. -/
def resolveRefFuel (biblio : List (String × Entry)) :
    Nat → String → Option (Option Entry)
  | 0, _ => none
  | fuel + 1, key =>
    match objGet biblio key with
    | none => some none   -- `if (!biblio.hasOwnProperty(key)) return null;`
    | some entry =>
      match truthyStr? entry.aliasOf with
      | some target => resolveRefFuel biblio fuel target   -- `return await resolveRef(entry.aliasOf);`
      | none => some (some entry)   -- `return entry;`

/-! ## Resolution orchestrator (`Plugin`, biblio.js lines 158–231) -/

/-- The configuration fields `Plugin.run` reads. -/
structure Conf where
  normativeReferences : List String
  informativeReferences : List String
  localBiblio : Option (List (String × Entry))

/-- The IndexedDB cache during one pass: either the whole subsystem fails
(`biblioDB.ready` throws, every key degrades to a miss) or `biblioDB.find`
answers per key. -/
inductive IdbEnv where
  | failed
  | ready (find : String → Option Entry)

/-- Model of `normalizeReferences()` (biblio.js lines 168–177): the informative set
after removing every key whose lowercase form appears (lowercased) in the
normative set. -/
def normalizeInformative (conf : Conf) : List String :=
  let normalizedNormativeRefs := conf.normativeReferences.map jsToLower
  conf.informativeReferences.filter
    (fun key => !(normalizedNormativeRefs.contains (jsToLower key)))

/-- Model of `localAliases` (biblio.js lines 194–197): the `aliasOf` targets of
local-override entries that own an `aliasOf` property, keeping only targets
not themselves defined in the override table. -/
def localAliases (lb : List (String × Entry)) : List String :=
  (((lb.map Prod.fst).filter
      (fun key => ((objGet lb key).bind Entry.aliasOf).isSome)).map
    (fun key => ((objGet lb key).bind Entry.aliasOf).getD ""))
  |>.filter (fun key => !(objGet lb key).isSome)

/-- Model of `neededRefs` (biblio.js lines 200–210): normative and (normalized)
informative keys outside the override table, plus the external local alias
targets, sorted and deduplicated. -/
def neededRefs (conf : Conf) : List String :=
  let lb := conf.localBiblio.getD []
  jsSetDedup (jsSort
    (((conf.normativeReferences ++ normalizeInformative conf).filter
        (fun key => !(objGet lb key).isSome))
      ++ localAliases lb))

/-- Model of `getReferencesFromIdb(neededRefs)` (biblio.js lines 138–156). -/
def getReferencesFromIdb (needed : List String) (idb : IdbEnv) :
    List (String × Option Entry) :=
  match idb with
  | .failed => needed.map (fun id => (id, none))
  | .ready find => needed.map (fun id => (id, find id))

/-- Model of `Plugin.run()` (biblio.js lines 186–230).  The result is the final Store
mapping; `.ok` means `finish()` ran (the `done` promise resolved), `.error`
means the pass rejected with that exception before reaching `finish()`. -/
def run (conf : Conf) (idb : IdbEnv) (env : NetEnv) :
    Except JsErr (List (String × Entry)) := do
  let localBiblio := conf.localBiblio.getD []
  let needed := neededRefs conf
  let idbRefs := if needed.length != 0 then getReferencesFromIdb needed idb else []
  -- `(ref.data ? split.hasData : split.noData).push(ref)`
  let hasData := idbRefs.filter (fun r => r.2.isSome)
  let noData := idbRefs.filter (fun r => !r.2.isSome)
  -- `split.hasData.forEach(ref => { biblio[ref.id] = ref.data; })`
  let biblio1 := hasData.foldl
    (fun b r => match r.2 with | some d => objSet b r.1 d | none => b) []
  let externalRefs := noData.map Prod.fst
  let biblio2 ←
    if externalRefs.length != 0 then do
      let data ← updateFromNetwork externalRefs true env
      pure (objAssign biblio1 data)   -- `Object.assign(biblio, data)`
    else
      pure biblio1
  pure (objAssign biblio2 localBiblio)   -- `Object.assign(biblio, this.conf.localBiblio)`

/-! ## Citation formatter (render module)

`toRefContent(ref)` follows `aliasOf` pointers with a `circular` visited set.
The `while` loop is modelled step-indexed (`some` = the loop exited with that
result within the given number of iterations), and termination is proved for
every store and key. -/

/-- The circular-reference diagnostic emitted by `toRefContent`. -/
def circularMsg (ref key : String) : String :=
  "Circular reference in biblio DB between [`" ++ ref ++ "`] and [`" ++ key ++ "`]."

/-- One `Ref` result of `toRefContent`: the original key and the resolved
content (or `none`). -/
structure Ref where
  ref : String
  refcontent : Option Entry
deriving DecidableEq, Repr

/-- The `while (refcontent && refcontent.aliasOf)` loop of `toRefContent`,
step-indexed: state is the current `key`, `refcontent` and `circular` set;
the result is the final `refcontent` and the diagnostics shown. -/
def toRefContentLoop (biblio : List (String × Entry)) (ref : String) :
    Nat → String → Option Entry → List String → Option (Option Entry × List String)
  | 0, _, _, _ => none
  | fuel + 1, key, refcontent, circular =>
    match refcontent with
    | none => some (none, [])
    | some rc =>
      match truthyStr? rc.aliasOf with
      | none => some (some rc, [])
      | some target =>
        if target ∈ circular then
          -- `refcontent = null; showError(msg, name);` then the loop exits
          some (none, [circularMsg ref key])
        else
          -- `key = refcontent.aliasOf; refcontent = biblio[key]; circular.add(key);`
          toRefContentLoop biblio ref fuel target (objGet biblio target)
            (circular ++ [target])

/-- Model of `toRefContent(ref)` (render module): run the alias-following loop from
`biblio[ref]` with `circular = new Set([ref])`, then default a falsy `id` to
the lowercased key.  Step-indexed by the loop fuel. -/
def toRefContentFuel (biblio : List (String × Entry)) (fuel : Nat) (ref : String) :
    Option (Ref × List String) :=
  (toRefContentLoop biblio ref fuel ref (objGet biblio ref) [ref]).map
    (fun r =>
      let refcontent :=
        match r.1 with
        | some rc =>
          -- `if (refcontent && !refcontent.id) refcontent.id = ref.toLowerCase();`
          if (truthyStr? rc.id).isSome then some rc
          else some { rc with id := some (jsToLower ref) }
        | none => none
      ({ ref := ref, refcontent := refcontent }, r.2))

/-- Model of `groupRefs(refs)` (render module): partition into good references (with
their non-null content) and bad references. -/
def groupRefs (refs : List Ref) : List (String × Entry) × List Ref :=
  refs.foldl
    (fun acc r =>
      match r.refcontent with
      | some rc => (acc.1 ++ [(r.ref, rc)], acc.2)
      | none => (acc.1, acc.2 ++ [r]))
    ([], [])

/-- Loop body of `getUniqueRefs`: `if (!uniqueRefs.has(ref.refcontent.id))
uniqueRefs.set(ref.refcontent.id, ref);` — insert only when the id is absent.
The `Map` key is `refcontent.id`, an optional string since the field may be
absent. -/
def uniqStep (m : List (Option String × (String × Entry))) (r : String × Entry) :
    List (Option String × (String × Entry)) :=
  if (objGet m r.2.id).isSome then m else m ++ [(r.2.id, r)]

/-- Model of `getUniqueRefs(refs)` (render module): a `Map` keyed by `refcontent.id`,
keeping the first reference for each id, values in insertion order. -/
def getUniqueRefs (refs : List (String × Entry)) : List (String × Entry) :=
  (refs.foldl uniqStep []).map (fun p => p.2)

/-- Loop body of `getAliases`: fetch the id's key list (creating an empty one
when the id is new) and push the reference key onto it. -/
def aliasStep (aliases : List (Option String × List String)) (r : String × Entry) :
    List (Option String × List String) :=
  let key := r.2.id
  match objGet aliases key with
  | some ks => objSet aliases key (ks ++ [r.1])
  | none => aliases ++ [(key, [r.1])]

/-- Model of `getAliases(refs)` (render module): a `Map` from `refcontent.id` to the
list of keys resolving to it, in order. -/
def getAliases (refs : List (String × Entry)) :
    List (Option String × List String) :=
  refs.foldl aliasStep []

/-! ## Concrete fixtures used by the claim theorems -/

/-- The two-element alias cycle A → B → A. -/
def cycBiblio : List (String × Entry) :=
  [("A", { aliasOf := some "B" }), ("B", { aliasOf := some "A" })]

/-- A benign network: online, Specref answers 200 with a well-formed body for
`RFC2119`, Crossref is not consulted (no `doi:` keys are requested). -/
def okNetEnv : NetEnv :=
  { onLine := true
    specref := .response
      { status := 200, body := .ok [("RFC2119", { title := some "Key words" })] }
    crossref := .fetchError }

/-- A document requesting the single normative reference `RFC2119`, with no
informative references and no local overrides. -/
def rfcConf : Conf :=
  { normativeReferences := ["RFC2119"]
    informativeReferences := []
    localBiblio := none }

/-- A configuration whose only content is one local override. -/
def overrideConf : Conf :=
  { normativeReferences := []
    informativeReferences := []
    localBiblio := some [("X", { title := some "local" })] }

/-- Number of store keys not yet in the `circular` set: the variant of the
alias-following loop. -/
def unvisitedCount (biblio : List (String × Entry)) (circular : List String) : Nat :=
  (biblio.map Prod.fst).countP (fun key => !decide (key ∈ circular))

/-! ## Helper lemmas about the JS object model -/

theorem find_map_replace {κ α : Type} [DecidableEq κ] (o : List (κ × α)) (k k' : κ) (v : α) :
    (o.map (fun p => if p.1 = k then (k, v) else p)).find? (fun p => p.1 = k')
      = if k' = k then (o.find? (fun p => p.1 = k)).map (fun _ => (k, v))
        else o.find? (fun p => p.1 = k') := by
  rw [List.find?_map]
  by_cases h : k' = k
  · subst h
    have hpred : ((fun p : κ × α => decide (p.1 = k')) ∘
        (fun p => if p.1 = k' then (k', v) else p)) = (fun p => decide (p.1 = k')) := by
      funext p
      by_cases hp : p.1 = k' <;> simp [hp]
    rw [hpred, if_pos rfl]
    cases hf : o.find? (fun p => decide (p.1 = k')) with
    | none => simp
    | some q =>
      have hq : q.1 = k' := by simpa using List.find?_some hf
      simp [hq]
  · have hpred : ((fun p : κ × α => decide (p.1 = k')) ∘
        (fun p => if p.1 = k then (k, v) else p)) = (fun p => decide (p.1 = k')) := by
      funext p
      by_cases hp : p.1 = k
      · simp [hp, fun hk => h (hk : (k:κ) = k').symm]
      · simp [hp]
    rw [hpred, if_neg h]
    cases hf : o.find? (fun p => decide (p.1 = k')) with
    | none => simp
    | some q =>
      have hq : q.1 = k' := by simpa using List.find?_some hf
      have : ¬ (q.1 = k) := fun hk => h (hq ▸ hk ▸ rfl)
      simp [this]

/-- Assigning key `k` then reading key `k'` reads the new value exactly when
`k' = k`. -/
theorem objGet_objSet {κ α : Type} [DecidableEq κ] (o : List (κ × α)) (k k' : κ) (v : α) :
    objGet (objSet o k v) k' = if k' = k then some v else objGet o k' := by
  unfold objGet objSet
  split
  · rename_i hsome
    rw [find_map_replace]
    by_cases h : k' = k
    · rw [if_pos h, if_pos h]
      cases hf : o.find? (fun p => decide (p.1 = k)) with
      | none => rw [hf] at hsome; simp at hsome
      | some q => simp
    · simp [h]
  · rw [List.find?_append]
    by_cases h : k' = k
    · subst h
      rename_i hnone
      have hn : o.find? (fun p => decide (p.1 = k')) = none := by
        cases hf : o.find? (fun p => decide (p.1 = k')) with
        | none => rfl
        | some q => rw [hf] at hnone; simp at hnone
      simp [hn, List.find?_cons]
    · cases hf : o.find? (fun p => decide (p.1 = k')) with
      | some q => simp [hf, h]
      | none =>
        have hd : decide (k = k') = false := decide_eq_false (fun hk => h hk.symm)
        simp [hf, List.find?_cons, hd, h]

theorem objGet_objSet_self {κ α : Type} [DecidableEq κ] (o : List (κ × α)) (k : κ) (v : α) :
    objGet (objSet o k v) k = some v := by
  rw [objGet_objSet, if_pos rfl]

theorem objGet_objSet_ne {κ α : Type} [DecidableEq κ] (o : List (κ × α)) (k k' : κ) (v : α)
    (h : k' ≠ k) : objGet (objSet o k v) k' = objGet o k' := by
  rw [objGet_objSet, if_neg h]

theorem objGet_append {κ α : Type} [DecidableEq κ] (o o' : List (κ × α)) (k : κ) :
    objGet (o ++ o') k = (objGet o k).or (objGet o' k) := by
  unfold objGet
  rw [List.find?_append]
  cases o.find? (fun p => p.1 = k) <;> simp

theorem objGet_eq_none_of_not_mem_keys {κ α : Type} [DecidableEq κ]
    {o : List (κ × α)} {k : κ} (h : k ∉ o.map Prod.fst) : objGet o k = none := by
  unfold objGet
  have : o.find? (fun p => decide (p.1 = k)) = none := by
    rw [List.find?_eq_none]
    intro p hp
    simp only [decide_eq_true_eq]
    exact fun hk => h (hk ▸ List.mem_map_of_mem Prod.fst hp)
  simp [this]

theorem mem_keys_of_objGet_eq_some {κ α : Type} [DecidableEq κ]
    {o : List (κ × α)} {k : κ} {v : α} (h : objGet o k = some v) :
    k ∈ o.map Prod.fst := by
  by_contra hk
  rw [objGet_eq_none_of_not_mem_keys hk] at h
  exact Option.noConfusion h

theorem objGet_objAssign_of_none {κ α : Type} [DecidableEq κ]
    (o : List (κ × α)) {u : List (κ × α)} {k : κ} (h : objGet u k = none) :
    objGet (objAssign o u) k = objGet o k := by
  induction u generalizing o with
  | nil => rfl
  | cons p rest ih =>
    have hp : decide (p.1 = k) = false := by
      cases hd : decide (p.1 = k) with
      | false => rfl
      | true => unfold objGet at h; rw [List.find?_cons, hd] at h; simp at h
    have hrest : objGet rest k = none := by
      unfold objGet at h ⊢
      rw [List.find?_cons, hp] at h
      exact h
    show objGet (objAssign (objSet o p.1 p.2) rest) k = objGet o k
    rw [ih _ hrest, objGet_objSet_ne _ _ _ _ (fun hk => by simp [hk] at hp)]

theorem objGet_objAssign_of_some {κ α : Type} [DecidableEq κ]
    (o : List (κ × α)) {u : List (κ × α)} {k : κ} {v : α}
    (hnodup : (u.map Prod.fst).Nodup) (h : objGet u k = some v) :
    objGet (objAssign o u) k = some v := by
  induction u generalizing o with
  | nil => simp [objGet] at h
  | cons p rest ih =>
    rw [List.map_cons, List.nodup_cons] at hnodup
    by_cases hp : p.1 = k
    · have hv : v = p.2 := by
        unfold objGet at h
        rw [List.find?_cons] at h
        simp [hp] at h
        exact h.symm
      have hrest : objGet rest k = none :=
        objGet_eq_none_of_not_mem_keys (hp ▸ hnodup.1)
      show objGet (objAssign (objSet o p.1 p.2) rest) k = some v
      rw [objGet_objAssign_of_none _ hrest, hp, objGet_objSet_self, hv]
    · have hrest : objGet rest k = some v := by
        unfold objGet at h ⊢
        rw [List.find?_cons] at h
        simp only [hp, decide_eq_false, Bool.false_eq_true] at h
        · exact h
      exact ih _ hnodup.2 hrest

theorem mem_jsSetDedup {α : Type} [DecidableEq α] {l : List α} {a : α} :
    a ∈ jsSetDedup l ↔ a ∈ l := by
  have key : ∀ (l : List α) (acc : List α),
      a ∈ l.foldl (fun acc x => if x ∈ acc then acc else acc ++ [x]) acc
        ↔ a ∈ acc ∨ a ∈ l := by
    intro l
    induction l with
    | nil => simp
    | cons x rest ih =>
      intro acc
      simp only [List.foldl_cons]
      by_cases hx : x ∈ acc
      · rw [if_pos hx, ih]
        constructor
        · rintro (h | h)
          · exact Or.inl h
          · exact Or.inr (List.mem_cons_of_mem x h)
        · rintro (h | h)
          · exact Or.inl h
          · rcases List.mem_cons.1 h with rfl | h
            · exact Or.inl hx
            · exact Or.inr h
      · rw [if_neg hx, ih]
        simp only [List.mem_append, List.mem_singleton, List.mem_cons]
        tauto
  simpa using key l []

theorem nodup_jsSetDedup {α : Type} [DecidableEq α] (l : List α) :
    (jsSetDedup l).Nodup := by
  have key : ∀ (l : List α) (acc : List α), acc.Nodup →
      (l.foldl (fun acc x => if x ∈ acc then acc else acc ++ [x]) acc).Nodup := by
    intro l
    induction l with
    | nil => exact fun _ h => h
    | cons x rest ih =>
      intro acc hacc
      simp only [List.foldl_cons]
      by_cases hx : x ∈ acc
      · rw [if_pos hx]; exact ih _ hacc
      · rw [if_neg hx]
        exact ih _ ((List.nodup_append_comm.2 (by simpa using ⟨hx, hacc⟩)))
  exact key l [] List.nodup_nil

theorem mem_jsSort {l : List String} {a : String} : a ∈ jsSort l ↔ a ∈ l :=
  List.mem_insertionSort _

/-! ## Claim theorems -/

/-- Claim C2 (code_bug). The claim says a freshly fetched batch is written to the
cache stamped with `min(one hour from fetch time, Expires)`.  The code cannot
do this: the expiry computation in `updateFromNetwork` reads `response` and
`oneHourFromNow`, which are local variables of `updateFromSpecref` and are not
in scope, so on the failing input below — a successful fetch of `RFC2119` over
a healthy network — `updateFromNetwork` throws
`ReferenceError: response is not defined` before stamping or writing anything,
and no expiry ever equals the claimed minimum. -/
theorem C2_expiry_stamp_unreachable :
    updateFromNetwork ["RFC2119"] true okNetEnv
      = .error (.referenceError "response") := by
  rfl

/-- Claim C3 (code_bug). The claim says `Plugin.run` never aborts, still merges
the local-override table, and always resolves the `done` promise.  On the
failing input below — one normative reference that is not in the cache, with a
healthy network — the pass reaches `updateFromNetwork`, which throws
`ReferenceError: response is not defined` (out-of-scope variable), so `run`
rejects before `Object.assign(biblio, this.conf.localBiblio)` and before
`finish()`: the override merge and the readiness signal do not happen. -/
theorem C3_run_aborts_on_network_path :
    run rfcConf (.ready fun _ => none) okNetEnv
      = .error (.referenceError "response") := by
  rfl

/-- Claim C8 (confirmed). Whatever the forced-update flag, a response with any
non-200 HTTP status makes `updateFromSpecref` return null to the caller: the
guard `(!options.forceUpdate && !response.ok) || response.status !== 200` has
an unconditional second disjunct. -/
theorem C8_non200_yields_null (refs : List String) (force onLine : Bool)
    (resp : SpecResponse) (h : resp.status ≠ 200) :
    updateFromSpecref refs force onLine (.response resp) = .ok none := by
  unfold updateFromSpecref
  split
  · rfl
  · have hs : (resp.status != 200) = true := by simpa using h
    simp [hs]

/-- Witness for `C8_non200_yields_null`: a concrete 404 response under the
forced-update flag yields null. -/
theorem C8_non200_yields_null_witness :
    updateFromSpecref ["A"] true true
        (.response { status := 404, body := .ok [] }) = .ok none :=
  C8_non200_yields_null ["A"] true true { status := 404, body := .ok [] }
    (by decide)

/-- Claim C10 (confirmed). `updateFromNetwork` first deduplicates its input and
discards keys whose trim is empty, then partitions by the `doi:` namespace:
a key survives into `specrefIds` exactly when it occurs in the input, is not
whitespace-only and lacks the `doi:` namespace marker, into `crossrefIds`
exactly when it occurs, is not whitespace-only and has the marker; both lists
are duplicate-free, so each adapter receives each key at most once and no key
reaches both adapters. -/
theorem C10_partition (refs : List String) (k : String) :
    (k ∈ specrefIds refs ↔ (k ∈ refs ∧ jsTrim k ≠ "" ∧ jsStartsWith k "doi:" = false))
      ∧ (k ∈ crossrefIds refs ↔ (k ∈ refs ∧ jsTrim k ≠ "" ∧ jsStartsWith k "doi:" = true))
      ∧ (specrefIds refs).Nodup ∧ (crossrefIds refs).Nodup := by
  unfold specrefIds crossrefIds refsToFetch
  refine ⟨?_, ?_, ?_, ?_⟩
  · simp only [List.mem_filter, mem_jsSetDedup, Bool.not_eq_true']
    constructor
    · rintro ⟨⟨hm, ht⟩, hd⟩
      exact ⟨hm, by simpa using ht, hd⟩
    · rintro ⟨hm, ht, hd⟩
      exact ⟨⟨hm, by simpa using ht⟩, hd⟩
  · simp only [List.mem_filter, mem_jsSetDedup]
    constructor
    · rintro ⟨⟨hm, ht⟩, hd⟩
      exact ⟨hm, by simpa using ht, hd⟩
    · rintro ⟨hm, ht, hd⟩
      exact ⟨⟨hm, by simpa using ht⟩, hd⟩
  · exact List.Nodup.filter _ (List.Nodup.filter _ (nodup_jsSetDedup refs))
  · exact List.Nodup.filter _ (List.Nodup.filter _ (nodup_jsSetDedup refs))

/-- Claim C4 (corrected, counterexample). The claim says the adapters never let
an exception past their boundary for any response body.  A 200 response whose
body is not valid JSON makes `updateFromCrossref` throw: `await
response.json()` is outside every `try` block, so the rejection escapes the
adapter. -/
theorem C4_counterexample_crossref_throws :
    updateFromCrossref ["doi:10.5555/12345678"] true (.response (.error ()))
      = .error .parseError := by
  rfl

/-- Claim C4 (corrected, amended claim). Each adapter returns a mapping or null —
without throwing — for an empty key list, an offline browser, and a rejected
request; the only way an exception escapes an adapter is a delivered response
whose body is malformed (fails to parse as JSON, or, for Crossref, parses
without a `message.items` array). -/
theorem C4_amended_throw_only_on_malformed_body :
    (∀ (refs : List String) (force onLine : Bool) (out : SpecOutcome) (e : JsErr),
        updateFromSpecref refs force onLine out = .error e →
          ∃ resp, out = .response resp ∧ ∃ u, resp.body = .error u)
      ∧ (∀ (refs : List String) (onLine : Bool) (out : CrossOutcome) (e : JsErr),
        updateFromCrossref refs onLine out = .error e →
          ∃ b, out = .response b ∧ (b = .error () ∨ b = .ok none))
      ∧ (∀ (refs : List String) (force onLine : Bool),
          updateFromSpecref refs force onLine .fetchError = .ok none)
      ∧ (∀ (refs : List String) (onLine : Bool),
          updateFromCrossref refs onLine .fetchError = .ok none)
      ∧ (∀ (refs : List String) (force : Bool) (out : SpecOutcome),
          updateFromSpecref refs force false out = .ok none)
      ∧ (∀ (refs : List String) (out : CrossOutcome),
          updateFromCrossref refs false out = .ok none) := by
  refine ⟨?_, ?_, ?_, ?_, ?_, ?_⟩
  · intro refs force onLine out e h
    unfold updateFromSpecref at h
    split at h
    · exact absurd h (by simp)
    · match out with
      | .fetchError => exact absurd h (by simp)
      | .response resp =>
        refine ⟨resp, rfl, ?_⟩
        simp only at h
        split at h
        · exact absurd h (by simp)
        · match hb : resp.body with
          | .error u => exact ⟨u, rfl⟩
          | .ok data => rw [hb] at h; exact absurd h (by simp)
  · intro refs onLine out e h
    unfold updateFromCrossref at h
    split at h
    · exact absurd h (by simp)
    · match out with
      | .fetchError => exact absurd h (by simp)
      | .response (.error u) => exact ⟨.error u, rfl, Or.inl rfl⟩
      | .response (.ok none) => exact ⟨.ok none, rfl, Or.inr rfl⟩
      | .response (.ok (some items)) => exact absurd h (by simp)
  · intro refs force onLine
    unfold updateFromSpecref
    split <;> rfl
  · intro refs onLine
    unfold updateFromCrossref
    split <;> rfl
  · intro refs force out
    unfold updateFromSpecref
    simp
  · intro refs out
    unfold updateFromCrossref
    simp

/-- Witness for `C4_amended_throw_only_on_malformed_body`: the Specref clause
applied to a concrete malformed-body response. -/
theorem C4_amended_throw_only_on_malformed_body_witness :
    ∃ resp, SpecOutcome.response { status := 200, body := .error () }
        = SpecOutcome.response resp ∧ ∃ u, resp.body = .error u :=
  C4_amended_throw_only_on_malformed_body.1 ["A"] true true
    (.response { status := 200, body := .error () }) .parseError (by rfl)

/-- Claim C9 (corrected, counterexample). The claim says every item *with a DOI
field* appears in the result under `"doi:" + DOI`.  The code tests JS
truthiness, not field presence: an item whose `DOI` field is present but
empty (`""`) is excluded with a logged error, and the key `"doi:"` is absent
from the result. -/
theorem C9_counterexample_empty_doi_excluded :
    crossrefCollect [{ DOI := some "" }]
      = ([], ["Invalid DOI metadata returned by Crossref"]) := by
  rfl

/-- Key characterization of the Crossref `reduce` fold, over an arbitrary
accumulator. -/
theorem crossrefFold_fst_isSome (k : String) :
    ∀ (items : List Entry) (acc : List (String × Entry) × List String),
      (objGet (items.foldl crossrefStep acc).1 k).isSome
        ↔ ((objGet acc.1 k).isSome
            ∨ ∃ item ∈ items, ∃ doi, truthyStr? item.DOI = some doi ∧ k = "doi:" ++ doi) := by
  intro items
  induction items with
  | nil => simp
  | cons item rest ih =>
    intro acc
    rw [List.foldl_cons]
    match hd : truthyStr? item.DOI with
    | some doi =>
      have hstep : crossrefStep acc item
          = (objSet acc.1 ("doi:" ++ doi)
              { item with id := some ("doi:" ++ doi), reference := none }, acc.2) := by
        unfold crossrefStep
        rw [hd]
      rw [hstep, ih]
      by_cases hk : k = "doi:" ++ doi
      · subst hk
        simp only [objGet_objSet_self, Option.isSome_some]
        constructor
        · intro _; exact Or.inr ⟨item, List.mem_cons_self _ _, doi, hd, rfl⟩
        · intro _; exact Or.inl (by simp)
      · rw [objGet_objSet_ne _ _ _ _ hk]
        constructor
        · rintro (h | ⟨i, hi, d, hdi, hkd⟩)
          · exact Or.inl h
          · exact Or.inr ⟨i, List.mem_cons_of_mem _ hi, d, hdi, hkd⟩
        · rintro (h | ⟨i, hi, d, hdi, hkd⟩)
          · exact Or.inl h
          · rcases List.mem_cons.1 hi with rfl | hi'
            · rw [hd] at hdi
              cases hdi
              exact absurd hkd hk
            · exact Or.inr ⟨i, hi', d, hdi, hkd⟩
    | none =>
      have hstep : crossrefStep acc item
          = (acc.1, acc.2 ++ ["Invalid DOI metadata returned by Crossref"]) := by
        unfold crossrefStep
        rw [hd]
      rw [hstep, ih]
      constructor
      · rintro (h | ⟨i, hi, d, hdi, hkd⟩)
        · exact Or.inl h
        · exact Or.inr ⟨i, List.mem_cons_of_mem _ hi, d, hdi, hkd⟩
      · rintro (h | ⟨i, hi, d, hdi, hkd⟩)
        · exact Or.inl h
        · rcases List.mem_cons.1 hi with rfl | hi'
          · rw [hd] at hdi; exact Option.noConfusion hdi
          · exact Or.inr ⟨i, hi', d, hdi, hkd⟩

/-- Log characterization of the Crossref `reduce` fold. -/
theorem crossrefFold_snd :
    ∀ (items : List Entry) (acc : List (String × Entry) × List String),
      (items.foldl crossrefStep acc).2
        = acc.2 ++ (items.filter (fun i => (truthyStr? i.DOI).isNone)).map
            (fun _ => "Invalid DOI metadata returned by Crossref") := by
  intro items
  induction items with
  | nil => simp
  | cons item rest ih =>
    intro acc
    rw [List.foldl_cons]
    match hd : truthyStr? item.DOI with
    | some doi =>
      have hstep : (crossrefStep acc item).2 = acc.2 := by
        unfold crossrefStep
        rw [hd]
      have hstep1 : (crossrefStep acc item).1
          = objSet acc.1 ("doi:" ++ doi)
              { item with id := some ("doi:" ++ doi), reference := none } := by
        unfold crossrefStep
        rw [hd]
      rw [ih, hstep]
      have hfilter : (item :: rest).filter (fun i => (truthyStr? i.DOI).isNone)
          = rest.filter (fun i => (truthyStr? i.DOI).isNone) := by
        rw [List.filter_cons]
        simp [hd]
      rw [hfilter]
    | none =>
      have hstep : (crossrefStep acc item).2
          = acc.2 ++ ["Invalid DOI metadata returned by Crossref"] := by
        unfold crossrefStep
        rw [hd]
      rw [ih, hstep]
      have hfilter : (item :: rest).filter (fun i => (truthyStr? i.DOI).isNone)
          = item :: rest.filter (fun i => (truthyStr? i.DOI).isNone) := by
        rw [List.filter_cons]
        simp [hd]
      rw [hfilter, List.map_cons, List.append_assoc]
      rfl

/-- Claim C9 (corrected, amended claim). A key is present in the adapter's
result exactly when some returned item has a *non-empty* DOI equal to its
`doi:`-stripped form — so every item with a non-empty DOI contributes its key,
a requested key the source did not return is absent, and each item whose DOI
field is missing or empty is excluded, logging exactly one
"Invalid DOI metadata returned by Crossref" error. -/
theorem C9_amended_doi_partition (items : List Entry) (k : String) :
    ((objGet (crossrefCollect items).1 k).isSome
        ↔ ∃ item ∈ items, ∃ doi, truthyStr? item.DOI = some doi ∧ k = "doi:" ++ doi)
      ∧ (crossrefCollect items).2
          = (items.filter (fun i => (truthyStr? i.DOI).isNone)).map
              (fun _ => "Invalid DOI metadata returned by Crossref") := by
  constructor
  · rw [crossrefCollect, crossrefFold_fst_isSome]
    simp [objGet]
  · rw [crossrefCollect, crossrefFold_snd]
    rfl

/-- Claim C5 (confirmed). Override precedence: whenever the resolution pass
completes (`run` returns the final Store), the Store's value for every key
defined in the local-override table is the override's value, whatever the
cache and the network supplied — `Object.assign(biblio, this.conf.localBiblio)`
is the last merge.  The (always true of a JS object) hypothesis is that the
override table has no duplicate keys. -/
theorem C5_override_precedence (conf : Conf) (idb : IdbEnv) (env : NetEnv)
    (b : List (String × Entry)) (k : String) (v : Entry)
    (hnodup : ((conf.localBiblio.getD []).map Prod.fst).Nodup)
    (hrun : run conf idb env = .ok b)
    (hover : objGet (conf.localBiblio.getD []) k = some v) :
    objGet b k = some v := by
  have hshape : ∃ b2, b = objAssign b2 (conf.localBiblio.getD []) := by
    simp only [run, Bind.bind, Except.bind, pure, Except.pure] at hrun
    repeat' split at hrun
    all_goals
      first
      | exact ⟨_, (Except.ok.inj hrun).symm⟩
      | exact absurd hrun (by simp)
  obtain ⟨b2, rfl⟩ := hshape
  exact objGet_objAssign_of_some _ hnodup hover

/-- Witness for `C5_override_precedence`: with the override-only configuration
the pass completes and the Store holds the override's value. -/
theorem C5_override_precedence_witness :
    objGet [("X", ({ title := some "local" } : Entry))] "X"
      = some { title := some "local" } :=
  C5_override_precedence overrideConf (.ready fun _ => none) okNetEnv
    [("X", { title := some "local" })] "X" { title := some "local" }
    (by decide) (by rfl) (by rfl)

/-- Membership in the `localAliases` list computed by `Plugin.run`. -/
theorem mem_localAliases (lb : List (String × Entry)) (k : String) :
    k ∈ localAliases lb
      ↔ (∃ a e, objGet lb a = some e ∧ e.aliasOf = some k)
          ∧ objGet lb k = none := by
  unfold localAliases
  rw [List.mem_filter]
  constructor
  · rintro ⟨hmem, hq⟩
    rcases List.mem_map.1 hmem with ⟨key, hkeyf, hf⟩
    rcases List.mem_filter.1 hkeyf with ⟨hkeys, hp⟩
    rcases Option.isSome_iff_exists.1 (by simpa using hp) with ⟨a', ha'⟩
    rcases Option.bind_eq_some.1 ha' with ⟨e, hobj, halias⟩
    rw [ha'] at hf
    simp only [Option.getD_some] at hf
    subst hf
    refine ⟨⟨key, e, hobj, halias⟩, ?_⟩
    cases hk : objGet lb a' with
    | none => rfl
    | some w => rw [hk] at hq; simp at hq
  · rintro ⟨⟨a, e, hobj, halias⟩, hnone⟩
    have hbind : (objGet lb a).bind Entry.aliasOf = some k := by
      rw [hobj]
      exact halias
    refine ⟨List.mem_map.2 ⟨a,
      List.mem_filter.2 ⟨mem_keys_of_objGet_eq_some hobj, by simp [hbind]⟩,
      by simp [hbind]⟩, ?_⟩
    simp [hnone]

/-- Claim C6 (confirmed). A key is sent to the cache/network (is in
`neededRefs`) exactly when it is in the union of the normative and (
normalized — spec step 1 precedes step 2) informative sets and not defined in
the local-override table, or it is the `aliasOf` target of a local-override
alias entry and not itself defined in the override table. -/
theorem C6_needed_refs (conf : Conf) (k : String) :
    k ∈ neededRefs conf
      ↔ ((k ∈ conf.normativeReferences ++ normalizeInformative conf
            ∧ objGet (conf.localBiblio.getD []) k = none)
          ∨ ((∃ a e, objGet (conf.localBiblio.getD []) a = some e
                ∧ e.aliasOf = some k)
              ∧ objGet (conf.localBiblio.getD []) k = none)) := by
  unfold neededRefs
  rw [mem_jsSetDedup, mem_jsSort, List.mem_append, List.mem_filter, mem_localAliases]
  constructor
  · rintro (⟨hm, hf⟩ | h)
    · exact Or.inl ⟨hm, by simpa using hf⟩
    · exact Or.inr h
  · rintro (⟨hm, hf⟩ | h)
    · exact Or.inl ⟨hm, by simpa using hf⟩
    · exact Or.inr h

/-! ## Termination of the `toRefContent` loop -/

theorem unvisitedCount_le (biblio : List (String × Entry)) (circular : List String)
    (t : String) :
    unvisitedCount biblio (circular ++ [t]) ≤ unvisitedCount biblio circular := by
  apply List.countP_mono_left
  intro x _ hx
  simp only [List.mem_append, List.mem_singleton, Bool.not_eq_true', decide_eq_false_iff_not] at hx ⊢
  exact fun hmem => hx (Or.inl hmem)

theorem countP_visit_le (keys circular : List String) (t : String) :
    keys.countP (fun key => !decide (key ∈ circular ++ [t]))
      ≤ keys.countP (fun key => !decide (key ∈ circular)) := by
  apply List.countP_mono_left
  intro x _ hx
  simp only [List.mem_append, List.mem_singleton, Bool.not_eq_true',
    decide_eq_false_iff_not] at hx ⊢
  exact fun hmem => hx (Or.inl hmem)

theorem countP_visit_lt (keys circular : List String) {t : String}
    (hmem : t ∈ keys) (hnot : t ∉ circular) :
    keys.countP (fun key => !decide (key ∈ circular ++ [t]))
      < keys.countP (fun key => !decide (key ∈ circular)) := by
  induction keys with
  | nil => simp at hmem
  | cons x rest ih =>
    rcases List.mem_cons.1 hmem with rfl | hrest
    · rw [List.countP_cons_of_neg _ _ (by simp), List.countP_cons_of_pos _ _ (by simp [hnot])]
      have hle := countP_visit_le rest circular t
      omega
    · by_cases hx : x = t
      · subst hx
        rw [List.countP_cons_of_neg _ _ (by simp), List.countP_cons_of_pos _ _ (by simp [hnot])]
        have hle := countP_visit_le rest circular x
        omega
      · rw [List.countP_cons, List.countP_cons]
        have heads : (!decide (x ∈ circular ++ [t])) = (!decide (x ∈ circular)) := by
          simp [List.mem_append, hx]
        rw [heads]
        have := ih hrest
        omega

theorem unvisitedCount_lt (biblio : List (String × Entry)) (circular : List String)
    {t : String} (hmem : t ∈ biblio.map Prod.fst) (hnot : t ∉ circular) :
    unvisitedCount biblio (circular ++ [t]) < unvisitedCount biblio circular :=
  countP_visit_lt (biblio.map Prod.fst) circular hmem hnot

/-- The alias-following loop of `toRefContent` terminates: from any state
there is a recursion depth at which the loop exits.  The variant is the
number of store keys not yet visited — every loop iteration either exits (no
content, no alias, or a repeated target) or marks one fresh store key
visited. -/
theorem toRefContentLoop_terminates (biblio : List (String × Entry)) (ref : String) :
    ∀ (N : Nat) (circular : List String) (key : String) (rc : Option Entry),
      unvisitedCount biblio circular ≤ N →
      ∃ n r, toRefContentLoop biblio ref n key rc circular = some r := by
  intro N
  induction N with
  | zero =>
    intro circular key rc hle
    match rc with
    | none => exact ⟨1, (none, []), rfl⟩
    | some e =>
      match halias : truthyStr? e.aliasOf with
      | none =>
        refine ⟨1, (some e, []), ?_⟩
        simp only [toRefContentLoop]
        rw [halias]
      | some target =>
        by_cases hmem : target ∈ circular
        · refine ⟨1, (none, [circularMsg ref key]), ?_⟩
          simp only [toRefContentLoop]
          rw [halias]
          simp [hmem]
        · match hb : objGet biblio target with
          | none =>
            refine ⟨2, (none, []), ?_⟩
            simp only [toRefContentLoop]
            rw [halias]
            simp only [hmem, if_false]
            rw [hb]
          | some e' =>
            have hlt : unvisitedCount biblio (circular ++ [target])
                < unvisitedCount biblio circular :=
              unvisitedCount_lt biblio circular (mem_keys_of_objGet_eq_some hb) hmem
            omega
  | succ N ih =>
    intro circular key rc hle
    match rc with
    | none => exact ⟨1, (none, []), rfl⟩
    | some e =>
      match halias : truthyStr? e.aliasOf with
      | none =>
        refine ⟨1, (some e, []), ?_⟩
        simp only [toRefContentLoop]
        rw [halias]
      | some target =>
        by_cases hmem : target ∈ circular
        · refine ⟨1, (none, [circularMsg ref key]), ?_⟩
          simp only [toRefContentLoop]
          rw [halias]
          simp [hmem]
        · match hb : objGet biblio target with
          | none =>
            refine ⟨2, (none, []), ?_⟩
            simp only [toRefContentLoop]
            rw [halias]
            simp only [hmem, if_false]
            rw [hb]
          | some e' =>
            have hlt : unvisitedCount biblio (circular ++ [target])
                < unvisitedCount biblio circular :=
              unvisitedCount_lt biblio circular (mem_keys_of_objGet_eq_some hb) hmem
            obtain ⟨n, r, hr⟩ := ih (circular ++ [target]) target (objGet biblio target)
              (by omega)
            refine ⟨n + 1, r, ?_⟩
            simp only [toRefContentLoop]
            rw [halias]
            simp only [hmem, if_false]
            exact hr

/-- Function `resolveRef` on the cyclic store never returns, at either key: no
recursion depth suffices. -/
theorem resolveRef_cycBiblio_diverges :
    ∀ n, resolveRefFuel cycBiblio n "A" = none
      ∧ resolveRefFuel cycBiblio n "B" = none := by
  intro n
  induction n with
  | zero => exact ⟨rfl, rfl⟩
  | succ n ih => exact ⟨ih.2, ih.1⟩

/-- Claim C1 (corrected, counterexample). The claim says alias resolution always
terminates for *both* `resolveRef` and `toRefContent`.  `resolveRef` keeps no
visited set: on the alias chain A→B→A of `cycBiblio`, the recursion
`resolveRef("A") → resolveRef("B") → resolveRef("A") → …` never returns — no
recursion depth makes the fuel-indexed model of `resolveRef("A")` produce a
result, so resolving the concrete key `"A"` does not terminate. -/
theorem C1_counterexample_resolveRef_cycle :
    ¬ ∃ n r, resolveRefFuel cycBiblio n "A" = some r := by
  rintro ⟨n, r, hr⟩
  rw [(resolveRef_cycBiblio_diverges n).1] at hr
  exact Option.noConfusion hr

/-- Claim C1 (corrected, amended claim). Alias resolution by `toRefContent`
always terminates: for every store and key some loop depth returns a result
(the loop's `circular` set makes the unvisited-key count strictly decrease).
On the alias chain A→B→A, `toRefContent("A")` — at any sufficient depth —
yields no content together with the diagnostic naming both A and B.
`resolveRef`, by contrast, terminates on no depth for a cyclic chain (see the
counterexample), so the original claim holds only for `toRefContent`. -/
theorem C1_amended_toRefContent_cycle_safe :
    (∀ (biblio : List (String × Entry)) (ref : String),
        ∃ n r, toRefContentFuel biblio n ref = some r)
      ∧ (∀ n, toRefContentFuel cycBiblio (n + 2) "A"
          = some ({ ref := "A", refcontent := none }, [circularMsg "A" "B"])) := by
  constructor
  · intro biblio ref
    obtain ⟨n, r, hr⟩ := toRefContentLoop_terminates biblio ref
      (unvisitedCount biblio [ref]) [ref] ref (objGet biblio ref) le_rfl
    cases hfe : toRefContentFuel biblio n ref with
    | some r' => exact ⟨n, r', hfe⟩
    | none =>
      unfold toRefContentFuel at hfe
      rw [hr] at hfe
      simp at hfe
  · intro n
    rfl

/-! ## Deduplication and alias sets -/

theorem objGet_singleton {κ α : Type} [DecidableEq κ] (k k' : κ) (v : α) :
    objGet [(k', v)] k = if k = k' then some v else none := by
  unfold objGet
  by_cases h : k = k'
  · have : decide (k' = k) = true := by simp [h.symm]
    simp [List.find?_cons, this, h]
  · have : decide (k' = k) = false := decide_eq_false (fun hk => h hk.symm)
    simp [List.find?_cons, this, h]

/-- Characterization of the `getUniqueRefs` fold over an arbitrary map:
among the kept values, the ones with a given id are the map's existing ones,
followed — when the map does not know the id yet — by the first incoming
reference with that id. -/
theorem uniqFold_filter (id : Option String) :
    ∀ (refs : List (String × Entry)) (m : List (Option String × (String × Entry))),
      ((refs.foldl uniqStep m).map (fun p => p.2)).filter (fun r => r.2.id = id)
        = ((m.map (fun p => p.2)).filter (fun r => r.2.id = id))
          ++ (if (objGet m id).isSome then []
              else (refs.filter (fun r => r.2.id = id)).take 1) := by
  intro refs
  induction refs with
  | nil =>
    intro m
    simp
  | cons r rest ih =>
    intro m
    rw [List.foldl_cons]
    by_cases hsome : (objGet m r.2.id).isSome
    · have hstep : uniqStep m r = m := by
        unfold uniqStep
        rw [if_pos hsome]
      rw [hstep, ih]
      by_cases hid : r.2.id = id
      · rw [hid] at hsome
        rw [if_pos hsome, if_pos hsome]
      · congr 1
        by_cases hm : (objGet m id).isSome
        · rw [if_pos hm, if_pos hm]
        · rw [if_neg hm, if_neg hm, List.filter_cons_of_neg (by simp [hid])]
    · have hstep : uniqStep m r = m ++ [(r.2.id, r)] := by
        unfold uniqStep
        rw [if_neg hsome]
      rw [hstep, ih]
      have hmnone : objGet m r.2.id = none := by
        cases hm : objGet m r.2.id with
        | none => rfl
        | some w => rw [hm] at hsome; simp at hsome
      by_cases hid : r.2.id = id
      · subst hid
        have hget : objGet (m ++ [(r.2.id, r)]) r.2.id = some r := by
          rw [objGet_append, hmnone, objGet_singleton, if_pos rfl]
          rfl
        rw [hget, if_neg (by simp [hsome] : ¬(objGet m r.2.id).isSome = true)]
        rw [List.map_append, List.filter_append]
        simp [List.filter_cons]
      · have hget : objGet (m ++ [(r.2.id, r)]) id = objGet m id := by
          rw [objGet_append, objGet_singleton, if_neg (fun hk => hid hk.symm)]
          cases objGet m id <;> rfl
        rw [hget, List.map_append, List.filter_append]
        have hnil : ((([(r.2.id, r)]).map (fun p => p.2)).filter
            (fun q => q.2.id = id)) = [] := by
          simp [hid]
        rw [hnil, List.append_nil]
        congr 1
        by_cases hm : (objGet m id).isSome
        · rw [if_pos hm, if_pos hm]
        · rw [if_neg hm, if_neg hm, List.filter_cons_of_neg (by simp [hid])]

/-- Characterization of the `getAliases` fold over an arbitrary map: the key
list stored under an id is whatever the map already holds, extended by the
keys of the incoming references with that id, in order. -/
theorem aliasFold_objGet (id : Option String) :
    ∀ (refs : List (String × Entry)) (m : List (Option String × List String)),
      objGet (refs.foldl aliasStep m) id
        = (if (objGet m id).isNone ∧ refs.filter (fun r => r.2.id = id) = [] then none
           else some ((objGet m id).getD []
              ++ ((refs.filter (fun r => r.2.id = id)).map Prod.fst))) := by
  intro refs
  induction refs with
  | nil =>
    intro m
    cases hm : objGet m id with
    | none => simp [hm]
    | some ks => simp [hm]
  | cons r rest ih =>
    intro m
    rw [List.foldl_cons]
    cases hk : objGet m r.2.id with
    | some ks =>
      have hstep : aliasStep m r = objSet m r.2.id (ks ++ [r.1]) := by
        simp only [aliasStep]
        rw [hk]
      rw [hstep, ih]
      by_cases hid : r.2.id = id
      · subst hid
        rw [objGet_objSet_self, hk]
        simp [List.filter_cons, List.append_assoc]
      · rw [objGet_objSet_ne _ _ _ _ (fun hk2 => hid hk2.symm)]
        rw [List.filter_cons_of_neg (by simp [hid])]
    | none =>
      have hstep : aliasStep m r = m ++ [(r.2.id, [r.1])] := by
        simp only [aliasStep]
        rw [hk]
      rw [hstep, ih]
      by_cases hid : r.2.id = id
      · subst hid
        have hget : objGet (m ++ [(r.2.id, [r.1])]) r.2.id = some [r.1] := by
          rw [objGet_append, hk, objGet_singleton, if_pos rfl]
          rfl
        rw [hget, hk]
        simp [List.filter_cons]
      · have hget : objGet (m ++ [(r.2.id, [r.1])]) id = objGet m id := by
          rw [objGet_append, objGet_singleton, if_neg (fun hk2 => hid hk2.symm)]
          cases objGet m id <;> rfl
        rw [hget]
        rw [List.filter_cons_of_neg (by simp [hid])]

/-- Claim C7 (confirmed). Among the good references, for every canonical id:
the deduplicated list keeps, of the references resolving to that id, exactly
the first one in document order (`filter … = take 1`), and the alias map
stores under that id the keys of *all* references resolving to it — the kept
one included — in document order. -/
theorem C7_dedup_first_and_alias_sets (refs : List (String × Entry)) (id : Option String) :
    (getUniqueRefs refs).filter (fun r => r.2.id = id)
        = (refs.filter (fun r => r.2.id = id)).take 1
      ∧ objGet (getAliases refs) id
        = (if refs.filter (fun r => r.2.id = id) = [] then none
           else some ((refs.filter (fun r => r.2.id = id)).map Prod.fst)) := by
  constructor
  · unfold getUniqueRefs
    rw [uniqFold_filter id refs []]
    simp [objGet]
  · unfold getAliases
    rw [aliasFold_objGet id refs []]
    by_cases hf : refs.filter (fun r => r.2.id = id) = []
    · simp [objGet, hf]
    · simp [objGet, hf]

end Respec
